import Mathlib

/-!
Verification of the PolyRoots core (`main.py`) against its specification.

The embedding models:
- the coefficient enumeration of `save_roots`
  (`product([-1, 1], repeat=degree)` prefixed with 1);
- the root accumulation loop of `save_roots`, including the `processed`
  counter and the progress-callback invocations;
- `compute_roots` (returns the roots from the solver, or an empty collection when
  the solver fails);
- the persistence layer (`np.save` / `np.load`) as an explicit file-content
  type with `Except`-style error signalling, together with the `try/except`
  wrappers of `save_roots` and `heat_map`;
- the `np.histogram2d` binning of `heat_map` over the fixed window
  `[-1.8, 1.8] x [-1.8, 1.8]` (points outside the range are dropped, the
  last bin is closed on the right), and the `ln(count + 1)` transform;
- the parameter validators `GetDegree` / `GetSizeValue` and the display
  logic of `DisplayHeatmap` / `RunGenerateHeatmap`.

Complex numbers are modelled as pairs of rationals (IEEE doubles are
rationals, and `np.save` / `np.load` of a complex array is bit-exact).
-/

/-- A complex value as stored in the flat root array: (real, imag). -/
abbrev Cplx : Type := ℚ × ℚ

/-- Heat-map window constant `X_MAX = 1.8` from `main.py`. -/
def X_MAX : ℚ := 18 / 10

/-- Heat-map window constant `X_MIN = -1.8` from `main.py`. -/
def X_MIN : ℚ := -(18 / 10)

/-- Heat-map window constant `Y_MAX = 1.8` from `main.py`. -/
def Y_MAX : ℚ := 18 / 10

/-- Heat-map window constant `Y_MIN = -1.8` from `main.py`. -/
def Y_MIN : ℚ := -(18 / 10)

/-- `itertools.product([-1, 1], repeat=n)` in its iteration order: the
first coordinate varies slowest, `-1` before `1`. -/
def signProduct : Nat → List (List ℤ)
  | 0 => [[]]
  | n + 1 =>
      ((signProduct n).map (fun c => (-1 : ℤ) :: c)) ++
        ((signProduct n).map (fun c => (1 : ℤ) :: c))

/-- The coefficient vectors enumerated by `save_roots`:
`(1,) + combo for combo in product([-1, 1], repeat=degree)`. -/
def coeffCombinations (d : Nat) : List (List ℤ) :=
  (signProduct d).map (fun combo => (1 : ℤ) :: combo)

/-- `compute_roots`: returns the roots delivered by `np.roots`, or an empty
array when the solver raised (the `except` branch). The solver outcome is
abstracted as `Option (List Cplx)`: `none` is a raised exception. -/
def compute_roots (raw : Option (List Cplx)) : List Cplx :=
  match raw with
  | some r => r
  | none => []

/-- State of the accumulation loop in `save_roots`: the list of per-polynomial
root batches, the `processed` counter, and the sequence of
`progress_callback(processed, total)` invocations. -/
structure SaveLoopState where
  roots : List (List Cplx)
  processed : Nat
  calls : List (Nat × Nat)
deriving Repr, DecidableEq

/-- One iteration of the `save_roots` loop body: append the batch returned by
`compute_roots`, bump `processed`, invoke the progress callback. -/
def saveRootsStep (total : Nat) (npRoots : List ℤ → Option (List Cplx))
    (s : SaveLoopState) (combo : List ℤ) : SaveLoopState :=
  { roots := s.roots ++ [compute_roots (npRoots combo)]
    processed := s.processed + 1
    calls := s.calls ++ [(s.processed + 1, total)] }

/-- The full `save_roots` loop over the enumerated coefficient vectors,
starting from `roots = []`, `processed = 0`, no callback invocations. -/
def saveRootsRun (npRoots : List ℤ → Option (List Cplx)) (d : Nat) :
    SaveLoopState :=
  (coeffCombinations d).foldl (saveRootsStep (2 ^ d) npRoots) ⟨[], 0, []⟩

/-- `np.concatenate(roots)`: the flat root collection `save_roots` persists. -/
def savedRoots (npRoots : List ℤ → Option (List Cplx)) (d : Nat) :
    List Cplx :=
  (saveRootsRun npRoots d).roots.flatten

/-- Error classes surfaced by the persistence layer. -/
inductive StoreErr where
  | ioErr
  | formatErr
deriving Repr, DecidableEq

/-- Content of the persisted data file. -/
inductive FileContent where
  | complexArray (data : List Cplx)
  | malformed
  | missing
deriving Repr, DecidableEq

/-- `np.save`: writing the flat complex array. -/
def saveToFile (c : List Cplx) : FileContent :=
  FileContent.complexArray c

/-- `np.save` viewed with its failure mode: raises an I/O error when the
target is unwritable, otherwise yields the stored array. -/
def saveOp (writable : Bool) (data : List Cplx) :
    Except StoreErr (List Cplx) :=
  if writable then Except.ok data else Except.error StoreErr.ioErr

/-- `np.load` plus the `.real`/`.imag` accesses of `heat_map`: raises an
I/O error on a missing file and a format error when the content is not a
flat complex array. -/
def loadOp : FileContent → Except StoreErr (List Cplx)
  | FileContent.complexArray data => Except.ok data
  | FileContent.malformed => Except.error StoreErr.formatErr
  | FileContent.missing => Except.error StoreErr.ioErr

/-- The body of `save_roots` up to and including `np.save`: compute the
collection, then write it. -/
def saveRootsInner (writable : Bool)
    (npRoots : List ℤ → Option (List Cplx)) (d : Nat) :
    Except StoreErr (List Cplx) :=
  saveOp writable (savedRoots npRoots d)

/-- `save_roots` with its `try/except` wrapper: any internal failure is
logged and absorbed; the function returns `None` either way. -/
def save_roots (writable : Bool)
    (npRoots : List ℤ → Option (List Cplx)) (d : Nat) :
    Except StoreErr Unit :=
  match saveRootsInner writable npRoots d with
  | Except.ok _ => Except.ok ()
  | Except.error _ => Except.ok ()

/-- `x` is inside the closed binning range `[lo, hi]` (the semantics of
`np.histogram2d` with an explicit `range`: values outside are dropped,
both endpoints are counted). -/
def bin_index (size : Nat) (lo hi v : ℚ) : Option (Fin size) :=
  if h : 0 < size ∧ lo ≤ v ∧ v ≤ hi then
    some ⟨min (((v - lo) * size / (hi - lo)).floor.toNat) (size - 1),
      Nat.lt_of_le_of_lt (Nat.min_le_right _ _) (Nat.sub_lt h.1 Nat.one_pos)⟩
  else none

/-- The cell a root falls into: `np.histogram2d(x, y, ...)` with
`x = f.real`, `y = f.imag`; `none` when the point is outside the window. -/
def binPair (size : Nat) (p : Cplx) : Option (Fin size × Fin size) :=
  match bin_index size X_MIN X_MAX p.1, bin_index size Y_MIN Y_MAX p.2 with
  | some i, some j => some (i, j)
  | _, _ => none

/-- The root lies in the closed window `[-1.8, 1.8] x [-1.8, 1.8]`. -/
def inWindow (p : Cplx) : Prop :=
  X_MIN ≤ p.1 ∧ p.1 ≤ X_MAX ∧ Y_MIN ≤ p.2 ∧ p.2 ≤ Y_MAX

instance (p : Cplx) : Decidable (inWindow p) := by
  unfold inWindow
  infer_instance

/-- The count of the histogram cell `(i, j)` produced by `np.histogram2d`. -/
def histCount (size : Nat) (pts : List Cplx) (i j : Fin size) : Nat :=
  (pts.filter (fun p => decide (binPair size p = some (i, j)))).length

/-- The body of `heat_map` up to the return: load the file, bin, notify the
progress callback once with `(size, size)`, apply `log(count + 1)` to every
cell. Returns the transformed grid together with the callback invocations. -/
noncomputable def heatMapInner (size : Nat) (file : FileContent) :
    Except StoreErr ((Fin size → Fin size → ℝ) × List (Nat × Nat)) :=
  match loadOp file with
  | Except.error e => Except.error e
  | Except.ok pts =>
      Except.ok
        (fun i j => Real.log ((histCount size pts i j : ℝ) + 1),
          [(size, size)])

/-- Result of `heat_map` as seen by its caller: the grid, or the empty
array `np.array([])` produced by the `except` branch. -/
inductive HeatResult (size : Nat) where
  | grid (g : Fin size → Fin size → ℝ)
  | empty

/-- `heat_map` with its `try/except` wrapper: any internal failure —
including a missing or malformed data file — is logged and an empty array
is returned instead of raising. -/
noncomputable def heat_map (size : Nat) (file : FileContent) :
    HeatResult size :=
  match heatMapInner size file with
  | Except.ok (g, _) => HeatResult.grid g
  | Except.error _ => HeatResult.empty

/-- `GetDegree`: parse succeeded, range check `1 <= degree <= 25`; out of
range raises `ValueError`, which the handler turns into `None` (no
computation is started by the callers in that case). -/
def GetDegree (input : ℤ) : Option ℤ :=
  if input < 1 ∨ 25 < input then none else some input

/-- `GetSizeValue`: range check `100 <= size <= 10000`, `None` otherwise. -/
def GetSizeValue (input : ℤ) : Option ℤ :=
  if input < 100 ∨ 10000 < input then none else some input

/-- The parameter-validation phase of `OnSaveAndGenerate` /
`OnGenerateHeatmap`: each handler returns (starting no thread and no
computation) as soon as a validator yields `None`. -/
def validatedParams (degreeInput sizeInput : ℤ) : Option (ℤ × ℤ) :=
  match GetDegree degreeInput with
  | none => none
  | some d =>
      match GetSizeValue sizeInput with
      | none => none
      | some s => some (d, s)

/-- What `DisplayHeatmap` does with a grid, seen by the caller. -/
inductive DisplayOutcome where
  | rendered
  | warnedOnly
deriving Repr, DecidableEq

/-- `DisplayHeatmap`: renders when `np.any(img > 0)`, otherwise only writes
a log warning and draws nothing. -/
noncomputable def DisplayHeatmap (size : Nat)
    (img : Fin size → Fin size → ℝ) : DisplayOutcome :=
  if ∃ i j, 0 < img i j then DisplayOutcome.rendered
  else DisplayOutcome.warnedOnly

/-- Outcome of `RunGenerateHeatmap` as observed by the user. -/
inductive RunOutcome where
  | errorDialog
  | displayed (d : DisplayOutcome)
deriving Repr, DecidableEq

/-- `RunGenerateHeatmap`: an empty `heat_map` result raises `ValueError`
(caught by the surrounding handler, which shows an error dialog); a
non-empty grid is handed to `DisplayHeatmap`. -/
noncomputable def RunGenerateHeatmap (size : Nat) (file : FileContent) :
    RunOutcome :=
  match heat_map size file with
  | HeatResult.empty => RunOutcome.errorDialog
  | HeatResult.grid g => RunOutcome.displayed (DisplayHeatmap size g)

/-! ## Enumeration lemmas (C1) -/

/-- `signProduct n` has exactly `2 ^ n` entries. -/
lemma signProduct_length (n : Nat) : (signProduct n).length = 2 ^ n := by
  induction n with
  | zero => rfl
  | succ n ih =>
      simp [signProduct, ih, pow_succ]
      ring

/-- Membership in `signProduct n`: exactly the length-`n` sign vectors. -/
lemma mem_signProduct (n : Nat) (v : List ℤ) :
    v ∈ signProduct n ↔ v.length = n ∧ ∀ x ∈ v, x = -1 ∨ x = 1 := by
  induction n generalizing v with
  | zero =>
      simp only [signProduct, List.mem_singleton]
      constructor
      · rintro rfl
        simp
      · rintro ⟨hl, _⟩
        exact List.eq_nil_of_length_eq_zero hl
  | succ n ih =>
      simp only [signProduct, List.mem_append, List.mem_map]
      constructor
      · rintro (⟨c, hc, rfl⟩ | ⟨c, hc, rfl⟩) <;>
          simp_all [List.length_cons, (ih c).mp hc]
      · rintro ⟨hl, hmem⟩
        cases v with
        | nil => simp at hl
        | cons x rest =>
            have hrest : rest ∈ signProduct n := by
              refine (ih rest).mpr ⟨by simpa using hl, ?_⟩
              intro y hy
              exact hmem y (List.mem_cons_of_mem x hy)
            rcases hmem x (List.mem_cons_self x rest) with hx | hx
            · exact Or.inl ⟨rest, hrest, by rw [hx]⟩
            · exact Or.inr ⟨rest, hrest, by rw [hx]⟩

/-- `signProduct n` has no duplicate entries. -/
lemma signProduct_nodup (n : Nat) : (signProduct n).Nodup := by
  induction n with
  | zero => simp [signProduct]
  | succ n ih =>
      refine List.Nodup.append ?_ ?_ ?_
      · exact ih.map fun a b h => List.tail_eq_of_cons_eq h
      · exact ih.map fun a b h => List.tail_eq_of_cons_eq h
      · intro v hv hv'
        rcases List.mem_map.mp hv with ⟨c, _, rfl⟩
        rcases List.mem_map.mp hv' with ⟨c', _, hc'⟩
        have := List.head_eq_of_cons_eq hc'.symm
        norm_num at this

/-- `coeffCombinations d` has exactly `2 ^ d` entries. -/
lemma coeffCombinations_length (d : Nat) :
    (coeffCombinations d).length = 2 ^ d := by
  simp [coeffCombinations, signProduct_length]

/-- `coeffCombinations d` has no duplicate entries. -/
lemma coeffCombinations_nodup (d : Nat) : (coeffCombinations d).Nodup :=
  (signProduct_nodup d).map fun a b h => List.tail_eq_of_cons_eq h

/-- C1: for every degree `d` in `[1, 25]`, the enumeration driving
`save_roots` produces exactly `2 ^ d` coefficient vectors, each of length
`d + 1`, with first element `1` and every remaining element in `{-1, 1}`,
with no duplicates and no omissions (every such vector occurs); the order
is the fixed order of `coeffCombinations`, hence deterministic. -/
theorem enumeration_correct (d : Nat) (h1 : 1 ≤ d) (h2 : d ≤ 25) :
    (coeffCombinations d).length = 2 ^ d ∧
    (coeffCombinations d).Nodup ∧
    (∀ v ∈ coeffCombinations d,
      v.length = d + 1 ∧ v.head? = some 1 ∧ ∀ x ∈ v.tail, x = -1 ∨ x = 1) ∧
    (∀ v : List ℤ, v.length = d + 1 → v.head? = some 1 →
      (∀ x ∈ v.tail, x = -1 ∨ x = 1) → v ∈ coeffCombinations d) := by
  refine ⟨coeffCombinations_length d, coeffCombinations_nodup d, ?_, ?_⟩
  · intro v hv
    rcases List.mem_map.mp hv with ⟨c, hc, rfl⟩
    rcases (mem_signProduct d c).mp hc with ⟨hlen, hmem⟩
    exact ⟨by simp [hlen], rfl, by simpa using hmem⟩
  · intro v hlen hhead htail
    cases v with
    | nil => simp at hhead
    | cons x rest =>
        have hx : x = 1 := by simpa using hhead
        subst hx
        refine List.mem_map.mpr ⟨rest, ?_, rfl⟩
        exact (mem_signProduct d rest).mpr ⟨by simpa using hlen, by simpa using htail⟩

/-- Witness for C1 at the concrete degree `d = 2`. -/
theorem enumeration_correct_witness :
    (1 ≤ 2 ∧ 2 ≤ 25) ∧
    ((coeffCombinations 2).length = 2 ^ 2 ∧
      (coeffCombinations 2).Nodup ∧
      (∀ v ∈ coeffCombinations 2,
        v.length = 2 + 1 ∧ v.head? = some 1 ∧ ∀ x ∈ v.tail, x = -1 ∨ x = 1) ∧
      (∀ v : List ℤ, v.length = 2 + 1 → v.head? = some 1 →
        (∀ x ∈ v.tail, x = -1 ∨ x = 1) → v ∈ coeffCombinations 2)) :=
  ⟨by decide, enumeration_correct 2 (by decide) (by decide)⟩

/-! ## The `save_roots` loop (C2, C9) -/

/-- Characterisation of the `save_roots` accumulation loop: after folding
over `l`, the batches, the counter and the callback log have grown exactly
one step per item. -/
lemma saveRootsLoop_spec (total : Nat)
    (npRoots : List ℤ → Option (List Cplx)) (l : List (List ℤ))
    (s : SaveLoopState) :
    l.foldl (saveRootsStep total npRoots) s =
      { roots := s.roots ++ l.map (fun c => compute_roots (npRoots c))
        processed := s.processed + l.length
        calls := s.calls ++
          (List.range l.length).map (fun k => (s.processed + k + 1, total)) } := by
  induction l generalizing s with
  | nil => simp
  | cons x l ih =>
      rw [List.foldl_cons, ih]
      simp only [saveRootsStep, List.map_cons, List.length_cons,
        List.range_succ_eq_map, List.map_map]
      simp only [SaveLoopState.mk.injEq]
      refine ⟨?_, by omega, ?_⟩
      · simp
      · rw [List.append_assoc]
        refine congrArg (s.calls ++ ·) ?_
        simp only [List.singleton_append, List.cons.injEq]
        refine ⟨by trivial, List.map_congr_left ?_⟩
        intro k _
        simp only [Function.comp_apply, Prod.mk.injEq, and_true]
        omega

/-- The batches accumulated by `save_roots` are one `compute_roots` result
per enumerated coefficient vector, in enumeration order. -/
lemma saveRootsRun_roots (npRoots : List ℤ → Option (List Cplx)) (d : Nat) :
    (saveRootsRun npRoots d).roots =
      (coeffCombinations d).map (fun c => compute_roots (npRoots c)) := by
  rw [saveRootsRun, saveRootsLoop_spec]
  simp

/-- The progress-callback log of `save_roots`: the `k`-th completed solve
fires `(k + 1, 2 ^ d)`. -/
lemma saveRootsRun_calls (npRoots : List ℤ → Option (List Cplx)) (d : Nat) :
    (saveRootsRun npRoots d).calls =
      (List.range (2 ^ d)).map (fun k => (k + 1, 2 ^ d)) := by
  rw [saveRootsRun, saveRootsLoop_spec]
  simp [coeffCombinations_length]

/-- Summing a constant over a list by mapping. -/
lemma sum_map_const_of_mem {α : Type} (l : List α) (f : α → Nat) (c : Nat)
    (h : ∀ x ∈ l, f x = c) : (l.map f).sum = c * l.length := by
  induction l with
  | nil => simp
  | cons x l ih =>
      have hx := h x (List.mem_cons_self x l)
      have hrest : ∀ y ∈ l, f y = c := fun y hy => h y (List.mem_cons_of_mem x hy)
      simp [hx, ih hrest, Nat.mul_succ, Nat.add_comm]

/-- C2: if every individual root computation succeeds (the solver returns
its `d` roots for each enumerated polynomial), the concatenated collection
written by `save_roots` has length exactly `d * 2 ^ d`. -/
theorem root_collection_length (npRoots : List ℤ → Option (List Cplx))
    (d : Nat)
    (h : ∀ v ∈ coeffCombinations d, ∃ r, npRoots v = some r ∧ r.length = d) :
    (savedRoots npRoots d).length = d * 2 ^ d := by
  rw [savedRoots, saveRootsRun_roots, List.length_flatten, List.map_map]
  rw [sum_map_const_of_mem _ _ d, coeffCombinations_length]
  intro v hv
  rcases h v hv with ⟨r, hr, hlen⟩
  simp [Function.comp_apply, compute_roots, hr, hlen]

/-- Witness for C2 at degree `2` with a solver that always returns two
roots: the collection has the `2 * 2 ^ 2 = 8` roots the claim names. -/
theorem root_collection_length_witness :
    (∀ v ∈ coeffCombinations 2,
      ∃ r, (fun _ : List ℤ => some [((0 : ℚ), (0 : ℚ)), (0, 0)]) v = some r ∧
        r.length = 2) ∧
    (savedRoots (fun _ => some [((0 : ℚ), (0 : ℚ)), (0, 0)]) 2).length =
      2 * 2 ^ 2 :=
  ⟨fun _ _ => ⟨_, rfl, rfl⟩,
    root_collection_length _ 2 (fun _ _ => ⟨_, rfl, rfl⟩)⟩

/-- C9: with a callback supplied, `save_roots` invokes it once per completed
root-solve, the `k`-th invocation carrying `(k + 1, 2 ^ d)` — so exactly
`2 ^ d` invocations with `(items_processed, items_total)` — and `heat_map`
invokes it exactly once for binning, with `current = total = size`. -/
theorem progress_callbacks (npRoots : List ℤ → Option (List Cplx))
    (d size : Nat) (pts : List Cplx) :
    (saveRootsRun npRoots d).calls =
      (List.range (2 ^ d)).map (fun k => (k + 1, 2 ^ d)) ∧
    (saveRootsRun npRoots d).calls.length = 2 ^ d ∧
    (∃ g, heatMapInner size (FileContent.complexArray pts) =
      Except.ok (g, [(size, size)])) := by
  refine ⟨saveRootsRun_calls npRoots d, ?_, ⟨_, rfl⟩⟩
  rw [saveRootsRun_calls]
  simp

/-! ## Persistence round-trip and error signalling (C3, C7, C10) -/

/-- C3: saving a non-empty root collection and loading it back yields a
collection of the same length whose components agree within `1e-6`
absolute tolerance (the store is in fact exact). -/
theorem store_roundtrip (c : List Cplx) (h : c ≠ []) :
    ∃ c', loadOp (saveToFile c) = Except.ok c' ∧ c'.length = c.length ∧
      ∀ (i : Nat) (hi : i < c.length) (hi' : i < c'.length),
        |(c'.get ⟨i, hi'⟩).1 - (c.get ⟨i, hi⟩).1| ≤ 1 / 1000000 ∧
        |(c'.get ⟨i, hi'⟩).2 - (c.get ⟨i, hi⟩).2| ≤ 1 / 1000000 := by
  refine ⟨c, rfl, rfl, ?_⟩
  intro i hi hi'
  constructor <;> · rw [sub_self, abs_zero]; norm_num

/-- Witness for C3 on the one-element collection `[(1, 2)]`. -/
theorem store_roundtrip_witness :
    ([((1 : ℚ), (2 : ℚ))] ≠ []) ∧
    (∃ c', loadOp (saveToFile [((1 : ℚ), (2 : ℚ))]) = Except.ok c' ∧
      c'.length = [((1 : ℚ), (2 : ℚ))].length ∧
      ∀ (i : Nat) (hi : i < [((1 : ℚ), (2 : ℚ))].length)
        (hi' : i < c'.length),
        |(c'.get ⟨i, hi'⟩).1 - ([((1 : ℚ), (2 : ℚ))].get ⟨i, hi⟩).1| ≤
          1 / 1000000 ∧
        |(c'.get ⟨i, hi'⟩).2 - ([((1 : ℚ), (2 : ℚ))].get ⟨i, hi⟩).2| ≤
          1 / 1000000) :=
  ⟨by decide, store_roundtrip [((1 : ℚ), (2 : ℚ))] (by decide)⟩

/-- C7: an unwritable target makes the save operation return an I/O error
to its caller, and a missing or malformed data file makes the load
operation return an I/O-class or format-class error to its caller — the
operations themselves never absorb these conditions. -/
theorem store_errors_surfaced (data : List Cplx) :
    saveOp false data = Except.error StoreErr.ioErr ∧
    loadOp FileContent.missing = Except.error StoreErr.ioErr ∧
    loadOp FileContent.malformed = Except.error StoreErr.formatErr :=
  ⟨rfl, rfl, rfl⟩

/-- C10: the entry points never propagate a failure: `save_roots` returns
normally (`None`) even when the write fails, and `heat_map` returns the
empty array on a missing or malformed data file — and in general returns
either a grid or the empty array, never an error. -/
theorem no_exception_propagation (w : Bool)
    (npRoots : List ℤ → Option (List Cplx)) (d size : Nat)
    (file : FileContent) :
    save_roots w npRoots d = Except.ok () ∧
    heat_map size FileContent.missing = HeatResult.empty ∧
    heat_map size FileContent.malformed = HeatResult.empty ∧
    (heat_map size file = HeatResult.empty ∨
      ∃ g, heat_map size file = HeatResult.grid g) := by
  refine ⟨?_, rfl, rfl, ?_⟩
  · rw [save_roots]
    cases saveRootsInner w npRoots d <;> rfl
  · rw [heat_map]
    cases file <;> simp [heatMapInner, loadOp]

/-! ## Parameter validation (C6) -/

/-- C6: any out-of-bounds degree or grid size is rejected by the
validators — `GetDegree` / `GetSizeValue` return `None` and the handlers
start no computation (`validatedParams` is `none`). -/
theorem validation_rejects (dIn sIn : ℤ)
    (h : (dIn < 1 ∨ 25 < dIn) ∨ (sIn < 100 ∨ 10000 < sIn)) :
    validatedParams dIn sIn = none ∧
    ((dIn < 1 ∨ 25 < dIn) → GetDegree dIn = none) ∧
    ((sIn < 100 ∨ 10000 < sIn) → GetSizeValue sIn = none) := by
  refine ⟨?_, fun hd => if_pos hd, fun hs => if_pos hs⟩
  rcases h with hd | hs
  · rw [validatedParams, GetDegree, if_pos hd]
  · rw [validatedParams]
    rcases hdeg : GetDegree dIn with _ | d
    · rfl
    · rw [GetSizeValue, if_pos hs]

/-- Witness for C6 at the four concrete rejects of the specification:
degree 0, degree 26, size 50, size 20000. -/
theorem validation_rejects_witness :
    (validatedParams 0 800 = none ∧ GetDegree 0 = none) ∧
    (validatedParams 26 800 = none ∧ GetDegree 26 = none) ∧
    (validatedParams 3 50 = none ∧ GetSizeValue 50 = none) ∧
    (validatedParams 3 20000 = none ∧ GetSizeValue 20000 = none) :=
  ⟨⟨(validation_rejects 0 800 (by decide)).1,
      (validation_rejects 0 800 (by decide)).2.1 (by decide)⟩,
    ⟨(validation_rejects 26 800 (by decide)).1,
      (validation_rejects 26 800 (by decide)).2.1 (by decide)⟩,
    ⟨(validation_rejects 3 50 (by decide)).1,
      (validation_rejects 3 50 (by decide)).2.2 (by decide)⟩,
    ⟨(validation_rejects 3 20000 (by decide)).1,
      (validation_rejects 3 20000 (by decide)).2.2 (by decide)⟩⟩

/-! ## Histogram binning (C4, C5, C8) -/

/-- A value is assigned a bin exactly when it lies in the closed range. -/
lemma bin_index_isSome (size : Nat) (lo hi v : ℚ) (h : 0 < size) :
    (bin_index size lo hi v).isSome ↔ lo ≤ v ∧ v ≤ hi := by
  rw [bin_index]
  split
  · next h' => simp [h'.2]
  · next h' =>
      simp only [Option.isSome_none, Bool.false_eq_true, false_iff]
      intro hc
      exact h' ⟨h, hc.1, hc.2⟩

/-- A root is assigned a cell exactly when it lies in the window. -/
lemma binPair_isSome (size : Nat) (p : Cplx) (h : 0 < size) :
    (binPair size p).isSome ↔ inWindow p := by
  have hx := bin_index_isSome size X_MIN X_MAX p.1 h
  have hy := bin_index_isSome size Y_MIN Y_MAX p.2 h
  rw [binPair, inWindow]
  rcases hbx : bin_index size X_MIN X_MAX p.1 with _ | i <;>
    rcases hby : bin_index size Y_MIN Y_MAX p.2 with _ | j <;>
    rw [hbx] at hx <;> rw [hby] at hy <;>
    simp_all

/-- Unfolding one point out of a histogram cell count. -/
lemma histCount_cons (size : Nat) (p : Cplx) (pts : List Cplx)
    (i j : Fin size) :
    histCount size (p :: pts) i j =
      (if binPair size p = some (i, j) then 1 else 0) +
        histCount size pts i j := by
  rw [histCount, histCount, List.filter_cons]
  by_cases hbp : binPair size p = some (i, j) <;> simp [hbp, Nat.add_comm]

/-- Summing the cell indicator of one point over the whole grid: `1` when the
point was binned, `0` when it was dropped. -/
lemma sum_indicator_eq (size : Nat) (q : Option (Fin size × Fin size)) :
    (∑ i : Fin size, ∑ j : Fin size, if q = some (i, j) then 1 else 0) =
      if q.isSome then 1 else 0 := by
  rcases q with _ | ⟨a, b⟩
  · simp
  · simp only [Option.isSome_some, if_true, Option.some.injEq,
      Prod.mk.injEq]
    have hrow : ∀ i : Fin size,
        (∑ j : Fin size, if a = i ∧ b = j then 1 else 0) =
          if a = i then 1 else 0 := by
      intro i
      by_cases hai : a = i
      · simp [hai, Finset.sum_ite_eq]
      · simp [hai]
    rw [Finset.sum_congr rfl (fun i _ => hrow i)]
    simp [Finset.sum_ite_eq]

/-- The total of all histogram cells is the number of in-window roots. -/
lemma sum_histCount (size : Nat) (pts : List Cplx) (h : 0 < size) :
    (∑ i : Fin size, ∑ j : Fin size, histCount size pts i j) =
      (pts.filter (fun p => decide (inWindow p))).length := by
  induction pts with
  | nil => simp [histCount]
  | cons p pts ih =>
      have step1 :
          (∑ i : Fin size, ∑ j : Fin size, histCount size (p :: pts) i j) =
            (∑ i : Fin size, ∑ j : Fin size,
              if binPair size p = some (i, j) then 1 else 0) +
              (∑ i : Fin size, ∑ j : Fin size, histCount size pts i j) := by
        simp only [histCount_cons]
        rw [← Finset.sum_add_distrib]
        refine Finset.sum_congr rfl fun i _ => ?_
        rw [← Finset.sum_add_distrib]
      rw [step1, sum_indicator_eq, ih, List.filter_cons]
      by_cases hw : inWindow p
      · have : (binPair size p).isSome := (binPair_isSome size p h).mpr hw
        simp [hw, this, Nat.add_comm]
      · have : ¬ (binPair size p).isSome := fun hs =>
          hw ((binPair_isSome size p h).mp hs)
        simp [hw, this]

/-- C4: the histogram counts only roots inside the closed window
`[-1.8, 1.8] x [-1.8, 1.8]` (out-of-window points are dropped): the sum of
all cell counts is the number of in-window roots, hence at most the total
number of roots, with equality exactly when no root lies outside. -/
theorem histogram_window (size : Nat) (pts : List Cplx) (h : 0 < size) :
    (∑ i : Fin size, ∑ j : Fin size, histCount size pts i j) =
      (pts.filter (fun p => decide (inWindow p))).length ∧
    (∑ i : Fin size, ∑ j : Fin size, histCount size pts i j) ≤ pts.length ∧
    ((∑ i : Fin size, ∑ j : Fin size, histCount size pts i j) = pts.length ↔
      ∀ p ∈ pts, inWindow p) := by
  have key := sum_histCount size pts h
  refine ⟨key, ?_, ?_⟩
  · rw [key]
    exact List.length_filter_le _ pts
  · rw [key]
    constructor
    · intro hlen p hp
      have hfeq : pts.filter (fun p => decide (inWindow p)) = pts :=
        (List.filter_sublist pts).eq_of_length hlen
      have := List.filter_eq_self.mp hfeq p hp
      exact of_decide_eq_true this
    · intro hall
      rw [List.filter_eq_self.mpr fun p hp => decide_eq_true (hall p hp)]

/-- Witness for C4 at `size = 1` with one in-window and one out-of-window
root. -/
theorem histogram_window_witness :
    0 < 1 ∧
    ((∑ i : Fin 1, ∑ j : Fin 1,
        histCount 1 [((0 : ℚ), (0 : ℚ)), (5, 0)] i j) =
      (List.filter (fun p => decide (inWindow p))
        [((0 : ℚ), (0 : ℚ)), (5, 0)]).length ∧
    (∑ i : Fin 1, ∑ j : Fin 1,
        histCount 1 [((0 : ℚ), (0 : ℚ)), (5, 0)] i j) ≤
      [((0 : ℚ), (0 : ℚ)), (5, 0)].length ∧
    ((∑ i : Fin 1, ∑ j : Fin 1,
        histCount 1 [((0 : ℚ), (0 : ℚ)), (5, 0)] i j) =
        [((0 : ℚ), (0 : ℚ)), (5, 0)].length ↔
      ∀ p ∈ [((0 : ℚ), (0 : ℚ)), (5, 0)], inWindow p)) :=
  ⟨Nat.one_pos, histogram_window 1 [((0 : ℚ), (0 : ℚ)), (5, 0)] Nat.one_pos⟩

/-- C5: the grid returned by `heat_map` is the per-cell `ln(count + 1)`
transform of the (non-negative) histogram counts. -/
theorem heatmap_log_transform (size : Nat) (pts : List Cplx) :
    ∃ g calls, heatMapInner size (FileContent.complexArray pts) =
      Except.ok (g, calls) ∧
      ∀ i j : Fin size,
        g i j = Real.log ((histCount size pts i j : ℝ) + 1) ∧
        (0 : ℝ) ≤ (histCount size pts i j : ℝ) :=
  ⟨_, _, rfl, fun i j => ⟨rfl, Nat.cast_nonneg _⟩⟩

/-- When every histogram count is zero, the transformed grid is all zero. -/
lemma heat_map_all_zero (size : Nat) (pts : List Cplx)
    (h : (∑ i : Fin size, ∑ j : Fin size, histCount size pts i j) = 0) :
    ∃ g, heat_map size (FileContent.complexArray pts) = HeatResult.grid g ∧
      ∀ i j : Fin size, g i j = 0 := by
  refine ⟨_, rfl, ?_⟩
  intro i j
  have hz : histCount size pts i j = 0 := by
    have hrow := (Finset.sum_eq_zero_iff.mp h) i (Finset.mem_univ i)
    exact (Finset.sum_eq_zero_iff.mp hrow) j (Finset.mem_univ j)
  simp [hz]

/-- Amended C8: when aggregation yields a histogram with zero
strictly-positive cells (empty collection, or every root outside the
window), no error-class condition reaches the caller: `heat_map` returns
the all-zero log grid normally, `RunGenerateHeatmap` proceeds to
`DisplayHeatmap`, and `DisplayHeatmap` merely logs a warning and renders
nothing. -/
theorem empty_histogram_only_warns (size : Nat) (pts : List Cplx)
    (h : (∑ i : Fin size, ∑ j : Fin size, histCount size pts i j) = 0) :
    RunGenerateHeatmap size (FileContent.complexArray pts) =
      RunOutcome.displayed DisplayOutcome.warnedOnly := by
  rcases heat_map_all_zero size pts h with ⟨g, hg, hzero⟩
  have hno : ¬ ∃ i j : Fin size, 0 < g i j := by
    rintro ⟨i, j, hij⟩
    rw [hzero i j] at hij
    exact lt_irrefl 0 hij
  rw [RunGenerateHeatmap, hg]
  simp only [DisplayHeatmap, hno, if_false]

/-- Witness for the amended C8 on the empty collection at `size = 1`. -/
theorem empty_histogram_only_warns_witness :
    (∑ i : Fin 1, ∑ j : Fin 1, histCount 1 ([] : List Cplx) i j) = 0 ∧
    RunGenerateHeatmap 1 (FileContent.complexArray []) =
      RunOutcome.displayed DisplayOutcome.warnedOnly :=
  ⟨by decide, empty_histogram_only_warns 1 [] (by decide)⟩

/-- Counterexample to C8 as stated: on the empty collection the histogram
has zero strictly-positive cells, yet no `EmptyResultError`-class
condition is reported to the caller — the run does not end in the error
path. -/
theorem empty_histogram_counterexample :
    (∑ i : Fin 2, ∑ j : Fin 2, histCount 2 ([] : List Cplx) i j) = 0 ∧
    RunGenerateHeatmap 2 (FileContent.complexArray []) ≠
      RunOutcome.errorDialog := by
  constructor
  · decide
  · have h := empty_histogram_only_warns 2 [] (by decide)
    rw [h]
    intro hcontra
    exact RunOutcome.noConfusion hcontra
